import Mathlib

/-!
Verification of the ffa3 FlashForge Adventurer 3 client (repository maruel/ffa3)
against its natural-language specification.

The Go sources are shallowly embedded over `List Char` (Go strings are byte
slices; every byte handled by this protocol is ASCII).  The scaled-integer
quantity type `physic.Distance` is an `int64` counting nanometres, so
`physic.MilliMetre = 10^6`; it is embedded as unbounded `Int`, which the spec
itself licenses (section 1 treats the physical-unit representation as an opaque
scaled-integer collaborator, out of scope of the core).  Likewise Go's
`strconv.Atoi` is embedded without its `int64` range limit.
-/

deriving instance DecidableEq for Except

/-- Shorthand turning a string literal into the byte/char list it denotes. -/
def s2l (s : String) : List Char := s.data

/-- Value of a run of decimal digit characters, most significant first,
accumulated exactly as `strconv.Atoi`'s fast path does (`n = n*10 + ch`). -/
def digitsVal (l : List Char) : Nat := l.foldl (fun a c => 10 * a + (c.toNat - 48)) 0

/-- Go `strconv.Atoi`: an optional single leading `+` or `-`, then one or more
decimal digits; anything else is a syntax error.  Embedded without the `int64`
range check (the numeric representation is out of the spec's scope). -/
def goAtoi (s : List Char) : Except Unit Int :=
  match s with
  | [] => .error ()
  | c :: rest =>
    let p := if c = '-' then (true, rest) else if c = '+' then (false, rest) else (false, s)
    if p.2 = [] then .error ()
    else if p.2.all Char.isDigit then
      .ok (if p.1 then -(digitsVal p.2 : Int) else (digitsVal p.2 : Int))
    else .error ()

/-- The `ff` accumulator of `parseDistance` (src/unnamed/part_001 lines
535-538): starts at `physic.MilliMetre = 10^6` nanometres and is divided by 10
once per fractional digit, truncating at each step. -/
def mmShift : Nat → Nat
  | 0 => 10 ^ 6
  | d + 1 => mmShift d / 10

/-- Embedding of `parseDistance` (src/unnamed/part_001 lines 519-551).
`none` models the Go runtime panic: `s[0] == '-'` indexes position 0
unconditionally, so the empty string faults.  All remaining operations
(`strings.IndexRune`, the two slices `s[:i]` and `s[i+1:]`) are in bounds by
construction, mirrored by total `take`/`drop`. -/
def runParseDistance (s : List Char) : Option (Except Unit Int) :=
  match s with
  | [] => none
  | c0 :: rest =>
    let neg := c0 = '-'
    let s1 := if neg then rest else c0 :: rest
    some (match s1.findIdx? (· = '.') with
      | some i =>
        match goAtoi (s1.take i) with
        | .error e => .error e
        | .ok v =>
          match goAtoi (s1.drop (i + 1)) with
          | .error e => .error e
          | .ok f =>
            let ff : Nat := mmShift (s1.drop (i + 1)).length
            let out : Int := 10 ^ 6 * v + (ff : Int) * f
            .ok (if neg then -out else out)
      | none =>
        match goAtoi s1 with
        | .error e => .error e
        | .ok v => .ok (if neg then -(10 ^ 6 * v) else 10 ^ 6 * v))

/-- Character list rendering of an optional leading minus sign. -/
def sgnChars : Bool → List Char
  | true => ['-']
  | false => []

/-- Application of an optional minus sign to a magnitude. -/
def appSign (sgn : Bool) (v : Int) : Int := if sgn then -v else v

/-- The text `[-]<ids>.<fds>` of a signed fixed-point decimal. -/
def sdStr (sgn : Bool) (ids fds : List Char) : List Char :=
  sgnChars sgn ++ ids ++ '.' :: fds

/-- The spec's value of a signed fixed-point decimal at millimetre unit
`10^6` nanometres: integer part scaled by the unit, fractional part scaled by
the unit divided (truncating) by `10^d` for `d` fractional digits. -/
def sdVal (sgn : Bool) (ids fds : List Char) : Int :=
  appSign sgn (10 ^ 6 * (digitsVal ids : Int) + ((10 ^ 6 / 10 ^ fds.length : Nat) : Int) * (digitsVal fds : Int))

/-- A nonempty all-digit character run. -/
def digitsNE (l : List Char) : Prop := l ≠ [] ∧ l.all Char.isDigit = true

instance (l : List Char) : Decidable (digitsNE l) := by
  unfold digitsNE
  infer_instance

/-- Failures of `sendCommand`: a failed `conn.Write`, a failed `conn.Read`
(Go returns the bytes accumulated so far together with the error), or a
response without the required frame wrapping (Go returns the raw response
together with an `unknown ... reply` error). -/
inductive SCErr
  | writeErr
  | readErr (got : List Char)
  | unknownReply (raw : List Char)
deriving DecidableEq

/-- The command's leading whitespace-delimited token,
`strings.SplitN(cmd, " ", 2)[0]`. -/
def cmdToken (cmd : List Char) : List Char := cmd.takeWhile (· ≠ ' ')

/-- The mandatory response prefix `"CMD " + token + " Received.\r\n"`. -/
def framePre (cmd : List Char) : List Char :=
  s2l "CMD " ++ cmdToken cmd ++ s2l " Received.\r\n"

/-- The final trim of the second generation (src/unnamed/part_001 lines
512-514): one trailing `\r\n`, if present, is removed. -/
def stripCRLF (l : List Char) : List Char :=
  if (s2l "\r\n").isSuffixOf l then l.take (l.length - 2) else l

/-- Validation tail of the first generation `sendCommand` (src/ffa3.go lines
500-512): check the prefix, check the suffix `\r\nok\r\n`, then return
`resp[len(prefix) : len(resp)-len("ok\r\n")]`.  The Go slice is rendered as
`drop`/`take`; `sendCore_slice_in_bounds` below shows the indices are always
in range once both checks pass, so the rendering is exact. -/
def sendCore1 (cmd resp : List Char) : Except SCErr (List Char) :=
  if ¬ (framePre cmd).isPrefixOf resp then .error (.unknownReply resp)
  else if ¬ (s2l "\r\nok\r\n").isSuffixOf resp then .error (.unknownReply resp)
  else .ok ((resp.drop (framePre cmd).length).take (resp.length - 4 - (framePre cmd).length))

/-- Validation tail of the second generation `sendCommand` (src/unnamed/part_001
lines 501-516): identical to generation one, plus the final `stripCRLF`. -/
def sendCore2 (cmd resp : List Char) : Except SCErr (List Char) :=
  if ¬ (framePre cmd).isPrefixOf resp then .error (.unknownReply resp)
  else if ¬ (s2l "\r\nok\r\n").isSuffixOf resp then .error (.unknownReply resp)
  else .ok (stripCRLF ((resp.drop (framePre cmd).length).take (resp.length - 4 - (framePre cmd).length)))

/-- One result of `conn.Read(b[:])` with the 4096-byte buffer: the bytes
delivered and whether the read returned an error alongside them. -/
structure RRead where
  bytes : List Char
  fail : Bool
deriving DecidableEq

/-- The accumulation loop shared by both generations (lines 489-500 of each
file): append each read's bytes; a read error returns the accumulated bytes
with the error; a read of fewer than 4096 bytes ends the loop.  `none` models
exhausting the script of reads, i.e. a connection that blocks forever. -/
def readLoop (acc : List Char) : List RRead → Option (List Char × Bool)
  | [] => none
  | r :: rest =>
    if r.fail then some (acc ++ r.bytes, true)
    else if r.bytes.length ≠ 4096 then some (acc ++ r.bytes, false)
    else readLoop (acc ++ r.bytes) rest

/-- Generation-one `sendCommand` (src/ffa3.go lines 481-513) over a script of
read results; `writeOk` is whether `conn.Write` of `~cmd\n` succeeded. -/
def sendCommandV1 (writeOk : Bool) (cmd : List Char) (reads : List RRead) :
    Option (Except SCErr (List Char)) :=
  if ¬ writeOk then some (.error .writeErr)
  else match readLoop [] reads with
    | none => none
    | some (resp, true) => some (.error (.readErr resp))
    | some (resp, false) => some (sendCore1 cmd resp)

/-- Generation-two `sendCommand` (src/unnamed/part_001 lines 481-517). -/
def sendCommandV2 (writeOk : Bool) (cmd : List Char) (reads : List RRead) :
    Option (Except SCErr (List Char)) :=
  if ¬ writeOk then some (.error .writeErr)
  else match readLoop [] reads with
    | none => none
    | some (resp, true) => some (.error (.readErr resp))
    | some (resp, false) => some (sendCore2 cmd resp)

/-- Outcomes of `Connect` (src/unnamed/part_001 lines 241-253 and 453-466):
a transport-level failure of the hello exchange, the distinguished
"printer already has a connection" error for the `Control failed.` sentinel,
or the "failed to take control" protocol violation carrying the unexpected
payload text. -/
inductive ConnectErr
  | transport (e : SCErr)
  | alreadyControlled
  | protocolViolation (payload : List Char)
deriving DecidableEq

/-- Embedding of `Connect` after a successful dial: `sendHello` runs
`sendCommand("M601 S1")` and classifies the decoded payload; on any
`sendHello` failure `Connect` calls `d.Close()`, which unconditionally reaches
`d.conn.Close()`, then returns `sendHello`'s error.  The second component is
whether the underlying stream has been closed (`false` = the connection is
returned open to the caller). -/
def connectModel (writeOk : Bool) (reads : List RRead) :
    Option (Except ConnectErr Unit × Bool) :=
  match sendCommandV2 writeOk (s2l "M601 S1") reads with
  | none => none
  | some (.error e) => some (.error (.transport e), true)
  | some (.ok p) =>
    if p = s2l "Control failed." then some (.error .alreadyControlled, true)
    else if ¬ p = s2l "Control Success." then some (.error (.protocolViolation p), true)
    else some (.ok (), false)

/-- Consume an exact literal from the front of the input, or fail
(models a literal segment of an anchored Go regexp). -/
def expectL (pat l : List Char) : Option (List Char) :=
  if pat.isPrefixOf l then some (l.drop pat.length) else none

/-- Consume a maximal nonempty digit run `\d+` from the front of the input
(each regexp group here is followed by a non-digit literal or the anchor `$`,
so the greedy run is exactly what the Go regexp matches). -/
def parseDigits (l : List Char) : Option (List Char × List Char) :=
  if l.takeWhile Char.isDigit = [] then none
  else some (l.takeWhile Char.isDigit, l.dropWhile Char.isDigit)

/-- The `Temperatures` record (src/unnamed/part_001 lines 119-125);
`physic.Temperature` is embedded as `Int`. -/
structure Temps where
  extruder : Int
  bed : Int
  chamber : Int
deriving DecidableEq

/-- The zero-valued `Temperatures{}` record a caller starts from. -/
def temps0 : Temps := ⟨0, 0, 0⟩

/-- Matcher for the `M105` reply regexp `^T(\d+):(\d+) /(\d+) B:(\d+)/(\d+)$`
(src/unnamed/part_001 line 387).  Each `\d+` is followed by a non-digit
literal or the anchor, so maximal munch coincides with the regexp. -/
def m105match (l : List Char) : Bool :=
  (do
    let l1 ← expectL (s2l "T") l
    let g1 ← parseDigits l1
    let l2 ← expectL (s2l ":") g1.2
    let g2 ← parseDigits l2
    let l3 ← expectL (s2l " /") g2.2
    let g3 ← parseDigits l3
    let l4 ← expectL (s2l " B:") g3.2
    let g4 ← parseDigits l4
    let l5 ← expectL (s2l "/") g4.2
    let g5 ← parseDigits l5
    if g5.2 = [] then some () else none : Option Unit).isSome

/-- Embedding of `QueryTemp` (src/unnamed/part_001 lines 380-393): match the
payload against the `M105` regexp; a non-match is an `unknown reply` error.
The matched groups are never written to the caller's record — the body is
`// TODO(maruel): Parse.` — so the record passes through unchanged. -/
def queryTemp (t : Temps) (resp : List Char) : Temps × Option SCErr :=
  if m105match resp then (t, none) else (t, some (.unknownReply resp))

/-- One reply datagram of the discovery protocol: the sender and the raw
payload bytes. -/
structure Reply where
  src : Nat
  bytes : List Nat
deriving DecidableEq

/-- A discovered printer (the `Found` record, src/unnamed/part_001 lines
152-157): sender address and display name. -/
def FFound : Type := Nat × List Nat

/-- The read loop of `Search` (src/unnamed/part_001 lines 190-209): every
datagram containing a NUL byte contributes one `Found` whose name is the bytes
before the first NUL; datagrams without a NUL are skipped; with `first` set the
loop returns after the first datagram either way. -/
def collectReplies (first : Bool) : List Reply → List FFound
  | [] => []
  | r :: rest =>
    let here : List FFound :=
      match r.bytes.findIdx? (· = 0) with
      | some i => [(r.src, r.bytes.take i)]
      | none => []
    if first then here else here ++ collectReplies first rest

/-- Failures of `Search`: address resolution, UDP listen, writing the probe,
closing the socket (the Go code returns `out, err` with `err` the `Close`
result on the window path). -/
inductive SearchErr
  | resolveFailed
  | listenFailed
  | writeFailed
  | closeFailed
deriving DecidableEq

/-- Embedding of `Search` (src/unnamed/part_001 lines 163-231) over the
outcome of each socket operation and the list of reply datagrams received
before the window `d` elapses.  Resolve/listen/write failures return
`nil, err` (the reader is joined and the socket closed first); otherwise the
reader's accumulated result is returned together with the `Close` error if
any.  Elapsed time is abstracted into `replies`: the claims concern what is
returned, not when. -/
def searchModel (first resolveOk listenOk writeOk closeOk : Bool)
    (replies : List Reply) : List FFound × Option SearchErr :=
  if ¬ resolveOk then ([], some .resolveFailed)
  else if ¬ listenOk then ([], some .listenFailed)
  else if ¬ writeOk then ([], some .writeFailed)
  else (collectReplies first replies, if closeOk then none else some .closeFailed)

/-- The `Info` record (src/unnamed/part_001 lines 127-139); distances are
`physic.Distance` nanometre counts, embedded as `Int`. -/
structure Info where
  mtype : List Char
  name : List Char
  firmware : List Char
  serial : List Char
  x : Int
  y : Int
  z : Int
  extruderCount : Int
  macAddr : List Char
deriving DecidableEq

/-- The zero-valued `Info{}` record a caller starts from. -/
def info0 : Info := ⟨[], [], [], [], 0, 0, 0, 0, []⟩

/-- Errors of `QueryPrinterInfo`: an unrecognized line, or a `strconv.Atoi`
syntax error from the `Tool Count:` value. -/
inductive IErr
  | unknownReply (line : List Char)
  | atoiSyntax
deriving DecidableEq

/-- Matcher for the `M115` volume line regexp `^X: (\d+) Y: (\d+) Z: (\d+)$`
(src/unnamed/part_001 line 286); each `\d+` is followed by a non-digit literal
or the anchor, so maximal munch coincides with the regexp. -/
def parseXYZ (l : List Char) : Option (Nat × Nat × Nat) := do
  let l1 ← expectL (s2l "X: ") l
  let g1 ← parseDigits l1
  let l2 ← expectL (s2l " Y: ") g1.2
  let g2 ← parseDigits l2
  let l3 ← expectL (s2l " Z: ") g2.2
  let g3 ← parseDigits l3
  if g3.2 = [] then some (digitsVal g1.1, digitsVal g2.1, digitsVal g3.1) else none

/-- Go `strings.TrimRight(line, "\r")`: remove every trailing `\r`. -/
def trimCR (l : List Char) : List Char := (l.reverse.dropWhile (· = '\r')).reverse

/-- One arm of the `QueryPrinterInfo` switch (src/unnamed/part_001 lines
276-313), applied to a trimmed line: either an error, or the update the line
performs on the record.  The arms are tried in source order; a blank line is a
no-op; any other line is an `unknown reply` error.  The `\d+` capture groups
of the volume line are digit runs, on which `strconv.Atoi` cannot fail, so the
updates are per-line atomic exactly as in the source. -/
def classify (line : List Char) : Except IErr (Info → Info) :=
  if (s2l "Machine Type: ").isPrefixOf line then .ok (fun i => { i with mtype := line.drop 14 })
  else if (s2l "Machine Name: ").isPrefixOf line then .ok (fun i => { i with name := line.drop 14 })
  else if (s2l "Firmware: ").isPrefixOf line then .ok (fun i => { i with firmware := line.drop 10 })
  else if (s2l "SN: ").isPrefixOf line then .ok (fun i => { i with serial := line.drop 4 })
  else if (s2l "X: ").isPrefixOf line then
    match parseXYZ line with
    | none => .error (.unknownReply line)
    | some g =>
      .ok (fun i => { i with x := 10 ^ 6 * (g.1 : Int), y := 10 ^ 6 * (g.2.1 : Int),
                             z := 10 ^ 6 * (g.2.2 : Int) })
  else if (s2l "Tool Count: ").isPrefixOf line then
    match goAtoi (line.drop 12) with
    | .error _ => .error .atoiSyntax
    | .ok v => .ok (fun i => { i with extruderCount := v })
  else if (s2l "Mac Address: ").isPrefixOf line then .ok (fun i => { i with macAddr := line.drop 13 })
  else if line = [] then .ok id
  else .error (.unknownReply line)

/-- The `QueryPrinterInfo` line loop: each line is trimmed and classified; a
recognized line's update is applied to the record and the loop continues; an
error returns immediately, leaving the record as mutated so far (the Go code
writes through the caller's pointer). -/
def infoLoop (i : Info) : List (List Char) → Info × Option IErr
  | [] => (i, none)
  | l :: ls =>
    match classify (trimCR l) with
    | .ok f => infoLoop (f i) ls
    | .error e => (i, some e)

/-- Embedding of `QueryPrinterInfo` (src/unnamed/part_001 lines 267-316)
applied to a decoded payload: split on `\n` and run the line loop on the
caller's record. -/
def queryPrinterInfo (i : Info) (resp : List Char) : Info × Option IErr :=
  infoLoop i (resp.splitOn '\n')

/-- Decision of whether a trimmed line is recognized by the switch. -/
def lineOk (l : List Char) : Bool :=
  match classify l with
  | .ok _ => true
  | .error _ => false

/-- The update a recognized line performs (identity on unrecognized lines). -/
def applyGood (i : Info) (l : List Char) : Info :=
  match classify l with
  | .ok f => f i
  | .error _ => i

/-- The error an unrecognized line raises (dummy on recognized lines). -/
def errOf (l : List Char) : IErr :=
  match classify l with
  | .error e => e
  | .ok _ => .atoiSyntax

/-- The `Position` record (src/unnamed/part_001 lines 109-117); X/Y/Z are
`physic.Distance` nanometre counts and A/B are `int`, all embedded as `Int`. -/
structure Position where
  x : Int
  y : Int
  z : Int
  a : Int
  b : Int
deriving DecidableEq

/-- The zero-valued `Position{}` record a caller starts from. -/
def pos0 : Position := ⟨0, 0, 0, 0, 0⟩

/-- Failures of `QueryExtruderPosition`: a payload the `M114` regexp rejects
(`unknown reply` with the raw payload), a number-syntax error from
`parseDistance`/`strconv.Atoi` (unreachable on regexp-matched groups), and the
`parseDistance` empty-string fault (likewise unreachable). -/
inductive QErr
  | unknownReply (raw : List Char)
  | syntaxErr
  | fault
deriving DecidableEq

/-- Matcher for one `M114` group `\-?\d+(?:\.\d+)` — note the fractional part
is *mandatory* in the source regexp (src/unnamed/part_001 line 347): an
optional `-`, a nonempty digit run, a literal `.`, a nonempty digit run.
Every group occurrence is followed by a non-digit literal or the anchor `$`,
so the greedy digit runs coincide with the regexp's backtracking match. -/
def parseSDBody (l : List Char) : Option (List Char × List Char) :=
  if l.takeWhile Char.isDigit = [] then none
  else if (l.dropWhile Char.isDigit).head? = some '.' then
    if ((l.dropWhile Char.isDigit).drop 1).takeWhile Char.isDigit = [] then none
    else some (l.takeWhile Char.isDigit
        ++ '.' :: ((l.dropWhile Char.isDigit).drop 1).takeWhile Char.isDigit,
      ((l.dropWhile Char.isDigit).drop 1).dropWhile Char.isDigit)
  else none

/-- The optional leading `-` of an `M114` group. -/
def parseSD (l : List Char) : Option (List Char × List Char) :=
  if l.head? = some '-' then
    match parseSDBody (l.drop 1) with
    | some g => some ('-' :: g.1, g.2)
    | none => none
  else parseSDBody l

/-- Matcher for the anchored `M114` reply regexp
`^X:(\-?\d+(?:\.\d+)) Y:(\-?\d+(?:\.\d+)) Z:(\-?\d+(?:\.\d+)) A:(\d+) B:(\d+)$`
(src/unnamed/part_001 line 347), returning the five capture groups. -/
def parsePos (l : List Char) :
    Option (List Char × List Char × List Char × List Char × List Char) :=
  match expectL (s2l "X:") l with
  | none => none
  | some l1 =>
    match parseSD l1 with
    | none => none
    | some (g1, l2) =>
      match expectL (s2l " Y:") l2 with
      | none => none
      | some l3 =>
        match parseSD l3 with
        | none => none
        | some (g2, l4) =>
          match expectL (s2l " Z:") l4 with
          | none => none
          | some l5 =>
            match parseSD l5 with
            | none => none
            | some (g3, l6) =>
              match expectL (s2l " A:") l6 with
              | none => none
              | some l7 =>
                match parseDigits l7 with
                | none => none
                | some (g4, l8) =>
                  match expectL (s2l " B:") l8 with
                  | none => none
                  | some l9 =>
                    match parseDigits l9 with
                    | none => none
                    | some (g5, l10) =>
                      if l10 = [] then some (g1, g2, g3, g4, g5) else none

/-- The `parseDistance(m[i])` step of `QueryExtruderPosition`: a fault on the
empty string, the propagated syntax error, or the parsed value. -/
def distStep (g : List Char) : Except QErr Int :=
  match runParseDistance g with
  | none => .error .fault
  | some (.error _) => .error .syntaxErr
  | some (.ok v) => .ok v

/-- Embedding of `QueryExtruderPosition` (src/unnamed/part_001 lines 341-378)
on a decoded payload: match the regexp (failure is `unknown reply` with the
record untouched), then decode the five groups into the caller's record
field by field, returning early on a decode error exactly as the source
does. -/
def queryExtruderPosition (p : Position) (resp : List Char) : Position × Option QErr :=
  match parsePos resp with
  | none => (p, some (.unknownReply resp))
  | some (g1, g2, g3, g4, g5) =>
    match distStep g1 with
    | .error e => (p, some e)
    | .ok v1 =>
      match distStep g2 with
      | .error e => ({ p with x := v1 }, some e)
      | .ok v2 =>
        match distStep g3 with
        | .error e => ({ p with x := v1, y := v2 }, some e)
        | .ok v3 =>
          match goAtoi g4 with
          | .error _ => ({ p with x := v1, y := v2, z := v3 }, some .syntaxErr)
          | .ok w1 =>
            match goAtoi g5 with
            | .error _ => ({ p with x := v1, y := v2, z := v3, a := w1 }, some .syntaxErr)
            | .ok w2 => ({ p with x := v1, y := v2, z := v3, a := w1, b := w2 }, none)

/-- The shape of an `M114` payload the claim quantifies over, with each signed
decimal given by its decomposition (sign flag, nonempty integer digit run,
nonempty fractional digit run) and the two trailing fields nonempty digit
runs. -/
def M114Shape (resp : List Char) (s1 : Bool) (i1 f1 : List Char) (s2 : Bool) (i2 f2 : List Char)
    (s3 : Bool) (i3 f3 g4 g5 : List Char) : Prop :=
  resp = s2l "X:" ++ (sdStr s1 i1 f1 ++ (s2l " Y:" ++ (sdStr s2 i2 f2 ++ (s2l " Z:"
      ++ (sdStr s3 i3 f3 ++ (s2l " A:" ++ (g4 ++ (s2l " B:" ++ g5))))))))
  ∧ digitsNE i1 ∧ digitsNE f1 ∧ digitsNE i2 ∧ digitsNE f2 ∧ digitsNE i3 ∧ digitsNE f3
  ∧ digitsNE g4 ∧ digitsNE g5

theorem digit_not_special {c : Char} (h : c.isDigit = true) :
    c ≠ '-' ∧ c ≠ '+' ∧ c ≠ '.' ∧ c ≠ ' ' := by
  refine ⟨?_, ?_, ?_, ?_⟩ <;> · intro hc; subst hc; exact absurd h (by decide)

theorem goAtoi_digits {ds : List Char} (h1 : ds ≠ []) (h2 : ds.all Char.isDigit = true) :
    goAtoi ds = .ok (digitsVal ds) := by
  cases ds with
  | nil => exact absurd rfl h1
  | cons c rest =>
    have hc : c.isDigit = true := by
      have := List.all_eq_true.mp h2 c (List.mem_cons_self c rest)
      simpa using this
    obtain ⟨hm, hp, -, -⟩ := digit_not_special hc
    simp only [goAtoi, if_neg hm, if_neg hp]
    simp [h2]

theorem mmShift_eq (d : Nat) : mmShift d = 10 ^ 6 / 10 ^ d := by
  induction d with
  | zero => simp [mmShift]
  | succ d ih =>
    rw [mmShift, ih, Nat.div_div_eq_div_mul, ← pow_succ]

theorem findIdxAux_digits_none {ids : List Char} (h : ids.all Char.isDigit = true) :
    ∀ i : Nat, ids.findIdx? (· = '.') i = none := by
  induction ids with
  | nil => intro i; rfl
  | cons c rest ih =>
    intro i
    have hc : c.isDigit = true := by
      have := List.all_eq_true.mp h c (List.mem_cons_self c rest)
      simpa using this
    obtain ⟨-, -, hd, -⟩ := digit_not_special hc
    have hrest : rest.all Char.isDigit = true := by
      rw [List.all_eq_true] at h ⊢
      exact fun x hx => h x (List.mem_cons_of_mem c hx)
    rw [List.findIdx?_cons]
    simp only [decide_eq_true_eq, if_neg hd]
    rw [ih hrest]

theorem findIdx_digits_dot {ids fds : List Char} (h : ids.all Char.isDigit = true) :
    ∀ i : Nat, (ids ++ '.' :: fds).findIdx? (· = '.') i = some (ids.length + i) := by
  induction ids with
  | nil =>
    intro i
    rw [List.nil_append, List.findIdx?_cons]
    simp
  | cons c rest ih =>
    intro i
    have hc : c.isDigit = true := by
      have := List.all_eq_true.mp h c (List.mem_cons_self c rest)
      simpa using this
    obtain ⟨-, -, hd, -⟩ := digit_not_special hc
    have hrest : rest.all Char.isDigit = true := by
      rw [List.all_eq_true] at h ⊢
      exact fun x hx => h x (List.mem_cons_of_mem c hx)
    rw [List.cons_append, List.findIdx?_cons]
    simp only [decide_eq_true_eq, if_neg hd]
    rw [ih hrest (i + 1)]
    congr 1
    simp [List.length_cons]
    omega

theorem parseDistance_int_case {ids : List Char} (sgn : Bool)
    (h1 : ids ≠ []) (h2 : ids.all Char.isDigit = true) :
    runParseDistance (sgnChars sgn ++ ids) = some (.ok (appSign sgn (10 ^ 6 * (digitsVal ids : Int)))) := by
  cases ids with
  | nil => exact absurd rfl h1
  | cons c rest =>
    have hc : c.isDigit = true := by
      have := List.all_eq_true.mp h2 c (List.mem_cons_self c rest)
      simpa using this
    obtain ⟨hm, -, -, -⟩ := digit_not_special hc
    have hf := findIdxAux_digits_none h2 0
    have hg := goAtoi_digits h1 h2
    cases sgn with
    | true =>
      simp [runParseDistance, sgnChars, appSign, hf, hg]
    | false =>
      simp [runParseDistance, sgnChars, appSign, hm, hf, hg]

theorem parseDistance_frac_case (sgn : Bool) {ids fds : List Char}
    (h1 : ids ≠ []) (h2 : ids.all Char.isDigit = true)
    (h3 : fds ≠ []) (h4 : fds.all Char.isDigit = true) :
    runParseDistance (sdStr sgn ids fds) = some (.ok (sdVal sgn ids fds)) := by
  have hfind := @findIdx_digits_dot ids fds h2 0
  have htake : (ids ++ '.' :: fds).take ids.length = ids := List.take_left ids _
  have hdrop : (ids ++ '.' :: fds).drop (ids.length + 1) = fds := by
    have he : ids ++ '.' :: fds = (ids ++ ['.']) ++ fds := by simp
    have hl : ids.length + 1 = (ids ++ ['.']).length := by simp
    rw [he, hl, List.drop_left]
  have hgi := goAtoi_digits h1 h2
  have hgf := goAtoi_digits h3 h4
  have hmm := mmShift_eq fds.length
  cases sgn with
  | true =>
    show runParseDistance ('-' :: (ids ++ '.' :: fds)) = _
    simp only [runParseDistance]
    simp [hfind, htake, hdrop, hgi, hgf, hmm, sdVal, appSign]
  | false =>
    cases ids with
    | nil => exact absurd rfl h1
    | cons c rest =>
      have hc : c.isDigit = true := by
        have := List.all_eq_true.mp h2 c (List.mem_cons_self c rest)
        simpa using this
      obtain ⟨hm, -, -, -⟩ := digit_not_special hc
      show runParseDistance ((c :: rest) ++ '.' :: fds) = _
      simp only [List.cons_append, runParseDistance]
      simp only [List.cons_append] at hfind htake hdrop
      simp [hm, hfind, htake, hdrop, hgi, hgf, hmm, sdVal, appSign]

theorem parseDistance_dot_led (sgn : Bool) (t : List Char) :
    runParseDistance (sgnChars sgn ++ '.' :: t) = some (.error ()) := by
  have hfind : List.findIdx? (· = '.') ('.' :: t) 0 = some 0 := by
    rw [List.findIdx?_cons]
    simp
  have hne : ('.' : Char) ≠ '-' := by decide
  cases sgn with
  | true =>
    show runParseDistance ('-' :: '.' :: t) = _
    simp [runParseDistance, hfind, goAtoi]
  | false =>
    show runParseDistance ('.' :: t) = _
    simp [runParseDistance, hfind, goAtoi, hne]

theorem parseDistance_frac_atoi (sgn : Bool) {ids : List Char} (t : List Char)
    (h1 : ids ≠ []) (h2 : ids.all Char.isDigit = true) :
    runParseDistance (sgnChars sgn ++ ids ++ '.' :: t)
      = some (match goAtoi t with
        | .error e => .error e
        | .ok f => .ok (appSign sgn (10 ^ 6 * (digitsVal ids : Int)
            + ((10 ^ 6 / 10 ^ t.length : Nat) : Int) * f))) := by
  have hfind := @findIdx_digits_dot ids t h2 0
  have htake : (ids ++ '.' :: t).take ids.length = ids := List.take_left ids _
  have hdrop : (ids ++ '.' :: t).drop (ids.length + 1) = t := by
    have he : ids ++ '.' :: t = (ids ++ ['.']) ++ t := by simp
    have hl : ids.length + 1 = (ids ++ ['.']).length := by simp
    rw [he, hl, List.drop_left]
  have hgi := goAtoi_digits h1 h2
  have hmm := mmShift_eq t.length
  cases sgn with
  | true =>
    show runParseDistance ('-' :: (ids ++ '.' :: t)) = _
    simp only [runParseDistance]
    simp [hfind, htake, hdrop, hgi, hmm]
    rcases hg : goAtoi t with e | v <;> simp [hg, appSign]
  | false =>
    cases ids with
    | nil => exact absurd rfl h1
    | cons c rest =>
      have hc : c.isDigit = true := by
        have := List.all_eq_true.mp h2 c (List.mem_cons_self c rest)
        simpa using this
      obtain ⟨hm, -, -, -⟩ := digit_not_special hc
      show runParseDistance ((c :: rest) ++ '.' :: t) = _
      simp only [List.cons_append, runParseDistance]
      simp only [List.cons_append] at hfind htake hdrop
      simp [hm, hfind, htake, hdrop, hgi, hmm]
      rcases hg : goAtoi t with e | v <;> simp [hg, appSign]

theorem parseDistance_dotless_atoi (sgn : Bool) (t : List Char)
    (hside : sgn = false → t ≠ [] ∧ t.head? ≠ some '-')
    (hdot : t.findIdx? (· = '.') 0 = none) :
    runParseDistance (sgnChars sgn ++ t)
      = some (Except.map (fun v => appSign sgn (10 ^ 6 * v)) (goAtoi t)) := by
  cases sgn with
  | true =>
    show runParseDistance ('-' :: t) = _
    rcases hg : goAtoi t with e | v
    · simp [runParseDistance, hdot, hg, Except.map, appSign]
    · simp [runParseDistance, hdot, hg, Except.map, appSign]
  | false =>
    obtain ⟨hne, hm⟩ := hside rfl
    cases t with
    | nil => exact absurd rfl hne
    | cons c t2 =>
      have hcm : ¬ c = '-' := by
        intro hc
        rw [List.head?_cons] at hm
        exact hm (by rw [hc])
      show runParseDistance (c :: t2) = _
      rcases hg : goAtoi (c :: t2) with e | v
      · simp [runParseDistance, hdot, hg, hcm, Except.map, appSign]
      · simp [runParseDistance, hdot, hg, hcm, Except.map, appSign]

/-- C5 (amended): on every string of the codec grammar (optional leading `-`,
nonempty run of integer digits, then optionally `.` and a nonempty run of
fractional digits) `parseDistance` returns
`sign * (intPart * 10^6 + fracPart * (10^6 / 10^d))`, the unit being one
millimetre (`10^6` nanometres) and the division truncating (conjuncts 1-2);
and its error behaviour follows `strconv.Atoi`'s syntax rather than the
claim's blanket "error on non-digit characters": a string whose first decimal
point has no integer digits before it is rejected (conjunct 3); with integer
digits before the first dot, the result is exactly `Atoi` of the remainder
after the dot — so a missing or malformed fraction such as `12.` or `1.2.3` is
rejected while a signed fraction such as `1.-5` is accepted (conjunct 4); and
a dotless string evaluates exactly as `Atoi` on its sign-stripped remainder —
rejected iff that is not an optionally-signed digit run, so an inner sign such
as `--5` is accepted (conjunct 5; see the counterexample). -/
theorem parseDistance_value_formula (sgn : Bool) (ids fds : List Char)
    (h1 : ids ≠ []) (h2 : ids.all Char.isDigit = true) (h4 : fds.all Char.isDigit = true) :
    runParseDistance (sgnChars sgn ++ ids) = some (.ok (appSign sgn (10 ^ 6 * (digitsVal ids : Int))))
    ∧ (fds ≠ [] → runParseDistance (sdStr sgn ids fds) = some (.ok (sdVal sgn ids fds)))
    ∧ (∀ t : List Char, runParseDistance (sgnChars sgn ++ '.' :: t) = some (.error ()))
    ∧ (∀ t : List Char, runParseDistance (sgnChars sgn ++ ids ++ '.' :: t)
        = some (match goAtoi t with
          | .error e => .error e
          | .ok f => .ok (appSign sgn (10 ^ 6 * (digitsVal ids : Int)
              + ((10 ^ 6 / 10 ^ t.length : Nat) : Int) * f))))
    ∧ (∀ t : List Char, (sgn = false → t ≠ [] ∧ t.head? ≠ some '-')
        → t.findIdx? (· = '.') 0 = none
        → runParseDistance (sgnChars sgn ++ t)
          = some (Except.map (fun v => appSign sgn (10 ^ 6 * v)) (goAtoi t))) :=
  ⟨parseDistance_int_case sgn h1 h2, fun h3 => parseDistance_frac_case sgn h1 h2 h3 h4,
    fun t => parseDistance_dot_led sgn t, fun t => parseDistance_frac_atoi sgn t h1 h2,
    fun t hside hdot => parseDistance_dotless_atoi sgn t hside hdot⟩

/-- C5 witness: `parseDistance "-12.340" = -12.340 mm = -12340000 nm`
(`-12340` micrometres) by the value formula, and `parseDistance "12."`
rejected as a malformed decimal point by conjunct 4 at the empty fraction. -/
theorem parseDistance_value_formula_witness :
    (runParseDistance (sdStr true (s2l "12") (s2l "340")) = some (.ok (sdVal true (s2l "12") (s2l "340")))
      ∧ sdVal true (s2l "12") (s2l "340") = -12340000)
    ∧ runParseDistance (sgnChars false ++ s2l "12" ++ '.' :: []) = some (.error ()) :=
  ⟨⟨(parseDistance_value_formula true (s2l "12") (s2l "340") (by decide) (by decide)
      (by decide)).2.1 (by decide), by decide⟩,
    by
      have h := (parseDistance_value_formula false (s2l "12") (s2l "340") (by decide) (by decide)
        (by decide)).2.2.2.1 []
      rw [h]
      rfl⟩

/-- C5 counterexample: the claim "returns an error on non-digit characters" is
false.  `parseDistance "--5"` succeeds and returns `+5` millimetres: the code
strips the first `-` itself and `strconv.Atoi` accepts the second, so the two
signs cancel, although position 1 of the input holds the non-digit `-`. -/
theorem parseDistance_inner_sign_accepted_cex :
    runParseDistance (s2l "--5") = some (.ok 5000000)
    ∧ ((s2l "--5").drop 1).all Char.isDigit = false := by
  exact ⟨by decide, by decide⟩

/-- C10: `parseDistance` faults only on the empty string.  On every nonempty
input it returns a value or an error without a runtime fault (all character
indexing is in bounds); the empty string makes the unconditional sign test
`s[0] == '-'` index out of range, modelled by `none`. -/
theorem parseDistance_total_on_nonempty :
    (∀ s : List Char, s ≠ [] → ∃ r, runParseDistance s = some r)
    ∧ runParseDistance [] = none := by
  constructor
  · intro s hs
    cases s with
    | nil => exact absurd rfl hs
    | cons c rest => exact ⟨_, rfl⟩
  · rfl

/-- C10 witness: the totality theorem applied at the concrete nonempty
input `"0"`. -/
theorem parseDistance_total_on_nonempty_witness :
    ∃ r, runParseDistance (s2l "0") = some r :=
  parseDistance_total_on_nonempty.1 (s2l "0") (by decide)

theorem isPrefixOf_app (l t : List Char) : l.isPrefixOf (l ++ t) = true := by
  rw [List.isPrefixOf_iff_prefix]
  exact List.prefix_append l t

theorem isSuffixOf_app (s t : List Char) : s.isSuffixOf (t ++ s) = true := by
  rw [List.isSuffixOf_iff_suffix]
  exact List.suffix_append t s

theorem framePre_ends (cmd : List Char) :
    framePre cmd = (s2l "CMD " ++ cmdToken cmd ++ s2l " Received") ++ s2l ".\r\n" := by
  have h : s2l " Received.\r\n" = s2l " Received" ++ s2l ".\r\n" := by decide
  rw [framePre, h]
  simp [List.append_assoc]

/-- Fidelity of the slice rendering: whenever both frame checks pass,
`len(prefix) + len("ok\r\n") ≤ len(resp)`, so the Go slice
`resp[len(prefix) : len(resp)-4]` is in bounds and equals the
`drop`/`take` used in `sendCore1`/`sendCore2`. -/
theorem sendCore_slice_in_bounds {cmd resp : List Char}
    (hp : (framePre cmd).isPrefixOf resp = true)
    (hs : (s2l "\r\nok\r\n").isSuffixOf resp = true) :
    (framePre cmd).length + 4 ≤ resp.length := by
  rw [List.isPrefixOf_iff_prefix] at hp
  rw [List.isSuffixOf_iff_suffix] at hs
  obtain ⟨t, ht⟩ := hp
  by_contra hlt
  push_neg at hlt
  have hresp := congrArg List.length ht
  simp only [List.length_append] at hresp
  have htl : t.length ≤ 3 := by omega
  have h1 : (s2l ".\r\n" ++ t) <:+ resp := by
    refine ⟨s2l "CMD " ++ cmdToken cmd ++ s2l " Received", ?_⟩
    rw [← ht, framePre_ends]
    simp [List.append_assoc]
  have h2 : (s2l ".\r\n" ++ t) <:+ s2l "\r\nok\r\n" := by
    refine List.suffix_of_suffix_length_le h1 hs ?_
    simp only [List.length_append]
    have : (s2l ".\r\n").length = 3 := by decide
    have h6 : (s2l "\r\nok\r\n").length = 6 := by decide
    omega
  obtain ⟨u, hu⟩ := h2
  have hul := congrArg List.length hu
  simp only [List.length_append] at hul
  have hdrop := congrArg (List.drop u.length) hu
  rw [List.drop_left] at hdrop
  have h3 : (s2l ".\r\n").length = 3 := by decide
  have h6 : (s2l "\r\nok\r\n").length = 6 := by decide
  have hlit : s2l ".\r\n" = ['.', '\r', '\n'] := by decide
  rw [hlit] at hdrop
  rcases t with _ | ⟨a, t⟩
  · have hu3 : u.length = 3 := by
      simp only [List.length_nil] at hul
      omega
    rw [hu3] at hdrop
    exact absurd hdrop (by decide)
  rcases t with _ | ⟨b, t⟩
  · have hu2 : u.length = 2 := by
      simp only [List.length_cons, List.length_nil] at hul
      omega
    rw [hu2, show List.drop 2 (s2l "\r\nok\r\n") = ['o', 'k', '\r', '\n'] from by decide] at hdrop
    have hh := congrArg List.head? hdrop
    simp only [List.cons_append, List.head?_cons] at hh
    exact absurd hh (by decide)
  rcases t with _ | ⟨c, t⟩
  · have hu1 : u.length = 1 := by
      simp only [List.length_cons, List.length_nil] at hul
      omega
    rw [hu1, show List.drop 1 (s2l "\r\nok\r\n") = ['\n', 'o', 'k', '\r', '\n'] from by decide] at hdrop
    have hh := congrArg List.head? hdrop
    simp only [List.cons_append, List.head?_cons] at hh
    exact absurd hh (by decide)
  rcases t with _ | ⟨d, t⟩
  · have hu0 : u.length = 0 := by
      simp only [List.length_cons, List.length_nil] at hul
      omega
    rw [hu0, show List.drop 0 (s2l "\r\nok\r\n") = ['\r', '\n', 'o', 'k', '\r', '\n'] from by decide] at hdrop
    have hh := congrArg List.head? hdrop
    simp only [List.cons_append, List.head?_cons] at hh
    exact absurd hh (by decide)
  · simp only [List.length_cons] at htl
    omega

/-- C1 (amended): on every response of the frame grammar
`prefix ++ M ++ "\r\nok\r\n"` the second-generation `sendCommand` returns
success with exactly the interior bytes `M`.  The code's single trailing-`\r\n`
strip removes precisely the `\r\n` left over from trimming only `"ok\r\n"` off
the end, so an interior that itself ends in `\r\n` keeps that separator (see
the counterexample: the claim's "one trailing `\r\n` further stripped" never
happens on top of the suffix's own `\r\n`). -/
theorem sendCommand_returns_exact_interior (cmd M : List Char) :
    sendCore2 cmd (framePre cmd ++ M ++ s2l "\r\nok\r\n") = .ok M := by
  have h6 : (s2l "\r\nok\r\n").length = 6 := by decide
  have hp : (framePre cmd).isPrefixOf (framePre cmd ++ M ++ s2l "\r\nok\r\n") = true := by
    rw [List.append_assoc]
    exact isPrefixOf_app _ _
  have hs : (s2l "\r\nok\r\n").isSuffixOf (framePre cmd ++ M ++ s2l "\r\nok\r\n") = true := by
    rw [List.append_assoc]
    rw [show M ++ s2l "\r\nok\r\n" = (M ++ s2l "\r\nok\r\n") from rfl]
    rw [← List.append_assoc]
    exact isSuffixOf_app _ _
  have hdrop : (framePre cmd ++ M ++ s2l "\r\nok\r\n").drop (framePre cmd).length
      = M ++ s2l "\r\nok\r\n" := by
    rw [List.append_assoc]
    exact List.drop_left _ _
  have hlen : (framePre cmd ++ M ++ s2l "\r\nok\r\n").length - 4 - (framePre cmd).length
      = M.length + 2 := by
    simp only [List.length_append, h6]
    omega
  have htk2 : (s2l "\r\nok\r\n").take 2 = s2l "\r\n" := by decide
  have htake : (M ++ s2l "\r\nok\r\n").take (M.length + 2) = M ++ s2l "\r\n" := by
    rw [List.take_append 2, htk2]
  have hstrip : stripCRLF (M ++ s2l "\r\n") = M := by
    rw [stripCRLF, if_pos (isSuffixOf_app _ _)]
    have hl : (M ++ s2l "\r\n").length - 2 = M.length := by
      have h2 : (s2l "\r\n").length = 2 := by decide
      simp only [List.length_append, h2]
      omega
    rw [hl, List.take_left]
  rw [sendCore2, if_neg (by rw [hp]; exact fun h => h rfl)]
  rw [if_neg (by rw [hs]; exact fun h => h rfl)]
  rw [hdrop, hlen, htake, hstrip]

/-- C1 counterexample: for the frame interior `M = "A\r\n"` (response
`CMD M115 Received.\r\nA\r\n` + `\r\nok\r\n`) the claim predicts the payload
`"A"` (interior with one trailing `\r\n` stripped, carrying no trailing line
separator); the code returns `"A\r\n"`, which still ends in `\r\n`. -/
theorem sendCommand_interior_crlf_not_stripped_cex :
    sendCore2 (s2l "M115") (framePre (s2l "M115") ++ s2l "A\r\n" ++ s2l "\r\nok\r\n")
      = .ok (s2l "A\r\n")
    ∧ s2l "A\r\n" ≠ s2l "A"
    ∧ (s2l "\r\n").isSuffixOf (s2l "A\r\n") = true := by
  exact ⟨by decide, by decide, by decide⟩

/-- C2: evidence for the code bug.  The response
`CMD M115 Received.\r\nA\r\nok\r\n` is delivered in two partial reads, neither
a read error; the suffix `\r\nok\r\n` has not yet been observed after the
first read, yet because that read returned fewer than 4096 bytes the loop
`if n != len(b) break` ends accumulation and the exchange fails with a framing
error — while the very same bytes, had they been fully accumulated, form a
valid frame with payload `A` (second conjunct). -/
theorem sendCommand_short_read_ends_accumulation :
    sendCommandV2 true (s2l "M115")
        [⟨s2l "CMD M115 Received.\r\nA", false⟩, ⟨s2l "\r\nok\r\n", false⟩]
      = some (.error (.unknownReply (s2l "CMD M115 Received.\r\nA")))
    ∧ sendCore2 (s2l "M115") (s2l "CMD M115 Received.\r\nA" ++ s2l "\r\nok\r\n")
      = .ok (s2l "A") := by
  exact ⟨by decide, by decide⟩

/-- C9 (amended): the two generations of `sendCommand` agree on blocking, on
every failure (same error, carrying the same raw bytes), and on the
success/failure outcome; on success the second generation's payload is the
first generation's payload with one trailing `\r\n` (if present) stripped.
They are *not* equal on success (see the counterexample). -/
theorem sendCommand_generations_relation (writeOk : Bool) (cmd : List Char) (reads : List RRead) :
    (sendCommandV1 writeOk cmd reads = none ↔ sendCommandV2 writeOk cmd reads = none)
    ∧ (∀ e, sendCommandV1 writeOk cmd reads = some (.error e)
        ↔ sendCommandV2 writeOk cmd reads = some (.error e))
    ∧ (∀ l, sendCommandV1 writeOk cmd reads = some (.ok l)
        → sendCommandV2 writeOk cmd reads = some (.ok (stripCRLF l))) := by
  have hcore : ∀ resp,
      (∀ e, sendCore1 cmd resp = .error e ↔ sendCore2 cmd resp = .error e)
      ∧ (∀ l, sendCore1 cmd resp = .ok l → sendCore2 cmd resp = .ok (stripCRLF l)) := by
    intro resp
    rw [sendCore1, sendCore2]
    by_cases hpre : (framePre cmd).isPrefixOf resp = true
    · by_cases hsuf : (s2l "\r\nok\r\n").isSuffixOf resp = true
      · simp only [hpre, hsuf, not_true, if_neg, if_false]
        constructor
        · intro e
          constructor <;> · intro h; exact absurd h (by simp)
        · intro l hl
          rw [Except.ok.injEq] at hl
          rw [hl]
      · simp only [hpre, hsuf, not_true, not_false_iff, if_false, if_true]
        constructor
        · intro e; exact Iff.rfl
        · intro l hl; exact absurd hl (by simp)
    · simp only [hpre, not_false_iff, if_true]
      constructor
      · intro e; exact Iff.rfl
      · intro l hl; exact absurd hl (by simp)
  cases writeOk with
  | false =>
    have h1 : sendCommandV1 false cmd reads = some (.error .writeErr) := by
      rw [sendCommandV1]
      simp
    have h2 : sendCommandV2 false cmd reads = some (.error .writeErr) := by
      rw [sendCommandV2]
      simp
    rw [h1, h2]
    exact ⟨Iff.rfl, fun e => Iff.rfl, fun l hl => by simp at hl⟩
  | true =>
    rw [sendCommandV1, sendCommandV2, if_neg (by simp), if_neg (by simp)]
    match hr : readLoop [] reads with
    | none => exact ⟨Iff.rfl, fun e => Iff.rfl, fun l hl => by simp at hl⟩
    | some (resp, true) => exact ⟨by simp, fun e => Iff.rfl, fun l hl => by simp at hl⟩
    | some (resp, false) =>
      refine ⟨by simp, fun e => ?_, fun l hl => ?_⟩
      · simp only [Option.some.injEq]
        constructor
        · intro h; exact ((hcore resp).1 e).mp h
        · intro h; exact ((hcore resp).1 e).mpr h
      · simp only [Option.some.injEq] at hl ⊢
        exact (hcore resp).2 l hl

/-- C9 counterexample: on the same wire response
`CMD M115 Received.\r\nA\r\nok\r\n` generation one returns payload `A\r\n`
and generation two returns payload `A` — the two generations are not
equivalent. -/
theorem sendCommand_generations_differ_cex :
    sendCommandV1 true (s2l "M115") [⟨s2l "CMD M115 Received.\r\nA\r\nok\r\n", false⟩]
      = some (.ok (s2l "A\r\n"))
    ∧ sendCommandV2 true (s2l "M115") [⟨s2l "CMD M115 Received.\r\nA\r\nok\r\n", false⟩]
      = some (.ok (s2l "A"))
    ∧ s2l "A\r\n" ≠ s2l "A" := by
  exact ⟨by decide, by decide, by decide⟩

/-- C9 witness: the relation instantiated on a concrete exchange of the
command `M119`. -/
theorem sendCommand_generations_relation_witness :
    sendCommandV2 true (s2l "M119") [⟨s2l "CMD M119 Received.\r\nB\r\nok\r\n", false⟩]
      = some (.ok (stripCRLF (s2l "B\r\n"))) :=
  (sendCommand_generations_relation true (s2l "M119")
    [⟨s2l "CMD M119 Received.\r\nB\r\nok\r\n", false⟩]).2.2 (s2l "B\r\n") (by decide)

/-- C3: `Connect` issues the hello command `M601 S1` and classifies its decoded
payload three ways — `Control Success.` yields an open connection (stream not
closed), `Control failed.` yields the distinguished already-controlled error,
any other payload yields a protocol violation quoting the text — and on every
handshake failure (including transport errors) the stream is closed before the
error is returned. -/
theorem connect_handshake_classification (writeOk : Bool) (reads : List RRead) :
    (sendCommandV2 writeOk (s2l "M601 S1") reads = some (.ok (s2l "Control Success."))
      → connectModel writeOk reads = some (.ok (), false))
    ∧ (sendCommandV2 writeOk (s2l "M601 S1") reads = some (.ok (s2l "Control failed."))
      → connectModel writeOk reads = some (.error .alreadyControlled, true))
    ∧ (∀ p, sendCommandV2 writeOk (s2l "M601 S1") reads = some (.ok p)
      → p ≠ s2l "Control failed." → p ≠ s2l "Control Success."
      → connectModel writeOk reads = some (.error (.protocolViolation p), true))
    ∧ (∀ e, sendCommandV2 writeOk (s2l "M601 S1") reads = some (.error e)
      → connectModel writeOk reads = some (.error (.transport e), true))
    ∧ (∀ r, connectModel writeOk reads = some r → r.1 ≠ .ok () → r.2 = true) := by
  refine ⟨?_, ?_, ?_, ?_, ?_⟩
  · intro h
    simp only [connectModel, h]
    rw [if_neg (show ¬ s2l "Control Success." = s2l "Control failed." from by decide)]
    rw [if_neg (by simp)]
  · intro h
    simp only [connectModel, h]
    rw [if_pos trivial]
  · intro p h hf hs
    simp only [connectModel, h]
    rw [if_neg hf, if_pos hs]
  · intro e h
    simp only [connectModel, h]
  · intro r hr hne
    match hsc : sendCommandV2 writeOk (s2l "M601 S1") reads with
    | none =>
      simp only [connectModel, hsc] at hr
      exact absurd hr (by simp)
    | some (.error e) =>
      simp only [connectModel, hsc, Option.some.injEq] at hr
      rw [← hr]
    | some (.ok p) =>
      simp only [connectModel, hsc] at hr
      by_cases hf : p = s2l "Control failed."
      · rw [if_pos hf] at hr
        simp only [Option.some.injEq] at hr
        rw [← hr]
      · rw [if_neg hf] at hr
        by_cases hs : p = s2l "Control Success."
        · rw [if_neg (by simp [hs])] at hr
          simp only [Option.some.injEq] at hr
          rw [← hr] at hne ⊢
          exact absurd rfl hne
        · rw [if_pos (by simp [hs])] at hr
          simp only [Option.some.injEq] at hr
          rw [← hr]

/-- C3 witness: a concrete successful handshake — the one-read response
`CMD M601 Received.\r\nControl Success.\r\nok\r\n` yields an open
connection. -/
theorem connect_handshake_classification_witness :
    connectModel true [⟨s2l "CMD M601 Received.\r\nControl Success.\r\nok\r\n", false⟩]
      = some (.ok (), false) :=
  (connect_handshake_classification true
    [⟨s2l "CMD M601 Received.\r\nControl Success.\r\nok\r\n", false⟩]).1 (by decide)

/-- C7: the code bug.  `QueryTemp` succeeds exactly on payloads matching
`T<n>:<int> /<int> B:<int>/<int>` but never extracts anything: the first
conjunct shows the caller's record is returned untouched on every input, and
the second shows the concrete matching payload `T0:20 /25 B:30/35` succeeding
while the zero record stays zero — the claimed extraction of current/target
extruder and bed temperatures does not happen (the code says
`TODO(maruel): Parse.`). -/
theorem queryTemp_record_untouched :
    (∀ (t : Temps) (resp : List Char), (queryTemp t resp).1 = t)
    ∧ queryTemp temps0 (s2l "T0:20 /25 B:30/35") = (temps0, none)
    ∧ queryTemp temps0 (s2l "nonsense") = (temps0, some (.unknownReply (s2l "nonsense"))) := by
  refine ⟨fun t resp => ?_, by decide, by decide⟩
  rw [queryTemp]
  by_cases h : m105match resp
  · rw [if_pos h]
  · rw [if_neg h]

/-- C8: when the discovery window elapses with zero reply datagrams and every
socket operation succeeds, `Search` returns the empty set of peers and no
error. -/
theorem search_zero_replies_empty_ok (first : Bool) :
    searchModel first true true true true [] = ([], none) := by
  cases first <;> rfl

theorem lineOk_iff {l : List Char} : lineOk l = true ↔ ∃ f, classify l = .ok f := by
  rw [lineOk]
  match h : classify l with
  | .ok f => simp
  | .error e => simp

theorem infoLoop_all_ok {lines : List (List Char)}
    (h : ∀ l ∈ lines, lineOk (trimCR l) = true) :
    ∀ i : Info, infoLoop i lines = (lines.foldl (fun a l => applyGood a (trimCR l)) i, none) := by
  induction lines with
  | nil => intro i; rfl
  | cons l ls ih =>
    intro i
    obtain ⟨f, hf⟩ := lineOk_iff.mp (h l (List.mem_cons_self l ls))
    have hls : ∀ x ∈ ls, lineOk (trimCR x) = true :=
      fun x hx => h x (List.mem_cons_of_mem l hx)
    simp only [infoLoop, hf]
    rw [ih hls (f i), List.foldl_cons]
    simp only [applyGood, hf]

theorem infoLoop_first_bad (pre : List (List Char)) (bad : List Char) (post : List (List Char))
    (hpre : ∀ l ∈ pre, lineOk (trimCR l) = true) (hbad : lineOk (trimCR bad) = false) :
    ∀ i : Info, infoLoop i (pre ++ bad :: post)
      = (pre.foldl (fun a l => applyGood a (trimCR l)) i, some (errOf (trimCR bad))) := by
  induction pre with
  | nil =>
    intro i
    rw [List.nil_append, List.foldl_nil]
    match hc : classify (trimCR bad) with
    | .ok f =>
      simp only [lineOk, hc] at hbad
      exact absurd hbad (by simp)
    | .error e =>
      simp only [infoLoop, hc, errOf]
  | cons l ls ih =>
    intro i
    obtain ⟨f, hf⟩ := lineOk_iff.mp (hpre l (List.mem_cons_self l ls))
    have hls : ∀ x ∈ ls, lineOk (trimCR x) = true :=
      fun x hx => hpre x (List.mem_cons_of_mem l hx)
    simp only [List.cons_append, infoLoop, hf]
    rw [List.append_eq, ih hls (f i), List.foldl_cons]
    simp only [applyGood, hf]

/-- C4 (amended): `QueryPrinterInfo` populates fields only from successfully
matched lines, but it is *not* atomic: if every line of the payload is
recognized the parse succeeds and the record is the fold of all the lines'
updates over the caller's record; if some line is unrecognized, the parse
fails and the caller's record keeps exactly the updates of the lines before
the first failing one — a partially populated record is returned on failure
(see the counterexample), and a successful parse populates only the fields
whose lines actually appear. -/
theorem queryPrinterInfo_prefix_population (i : Info) (resp : List Char) :
    ((∀ l ∈ resp.splitOn '\n', lineOk (trimCR l) = true) →
      queryPrinterInfo i resp
        = ((resp.splitOn '\n').foldl (fun a l => applyGood a (trimCR l)) i, none))
    ∧ (∀ pre bad post, resp.splitOn '\n' = pre ++ bad :: post →
        (∀ l ∈ pre, lineOk (trimCR l) = true) → lineOk (trimCR bad) = false →
        queryPrinterInfo i resp
          = (pre.foldl (fun a l => applyGood a (trimCR l)) i, some (errOf (trimCR bad)))) := by
  constructor
  · intro h
    rw [queryPrinterInfo, infoLoop_all_ok h i]
  · intro pre bad post hsplit hpre hbad
    rw [queryPrinterInfo, hsplit, infoLoop_first_bad pre bad post hpre hbad i]

/-- C4 witness: the failure half instantiated on the payload
`SN: 123\nwhat` — the recognized `SN:` line's update is retained while the
unrecognized line `what` fails the parse. -/
theorem queryPrinterInfo_prefix_population_witness :
    queryPrinterInfo info0 (s2l "SN: 123\nwhat")
      = ([s2l "SN: 123"].foldl (fun a l => applyGood a (trimCR l)) info0,
         some (errOf (trimCR (s2l "what")))) :=
  (queryPrinterInfo_prefix_population info0 (s2l "SN: 123\nwhat")).2
    [s2l "SN: 123"] (s2l "what") [] (by decide) (by decide) (by decide)

/-- C4 counterexample: atomicity fails.  On the payload
`Machine Type: T\nbogus` the parse errors on the second line, yet the
caller-supplied record has already been partially populated: its machine-type
field now holds `T`, so the record differs from the zero record it started
as. -/
theorem queryPrinterInfo_partial_record_cex :
    (queryPrinterInfo info0 (s2l "Machine Type: T\nbogus")).2
      = some (.unknownReply (s2l "bogus"))
    ∧ (queryPrinterInfo info0 (s2l "Machine Type: T\nbogus")).1 ≠ info0
    ∧ (queryPrinterInfo info0 (s2l "Machine Type: T\nbogus")).1.mtype = s2l "T" := by
  exact ⟨by decide, by decide, by decide⟩

theorem takeWhile_all_append (p : Char → Bool) : ∀ (ds rest : List Char),
    (∀ c ∈ ds, p c = true) → (∀ c, rest.head? = some c → p c = false) →
    (ds ++ rest).takeWhile p = ds ∧ (ds ++ rest).dropWhile p = rest := by
  intro ds
  induction ds with
  | nil =>
    intro rest h1 h2
    rw [List.nil_append]
    cases rest with
    | nil => exact ⟨rfl, rfl⟩
    | cons c t =>
      have hc := h2 c rfl
      rw [List.takeWhile_cons, List.dropWhile_cons]
      simp [hc]
  | cons d ds ih =>
    intro rest h1 h2
    have hd := h1 d (List.mem_cons_self d ds)
    have hds : ∀ c ∈ ds, p c = true := fun c hc => h1 c (List.mem_cons_of_mem d hc)
    obtain ⟨ht, hdr⟩ := ih rest hds h2
    rw [List.cons_append, List.takeWhile_cons, List.dropWhile_cons]
    simp [hd, ht, hdr]

theorem parseDigits_complete {ds rest : List Char} (h1 : digitsNE ds)
    (h3 : ∀ c, rest.head? = some c → c.isDigit = false) :
    parseDigits (ds ++ rest) = some (ds, rest) := by
  have hall : ∀ c ∈ ds, Char.isDigit c = true := fun c hc => List.all_eq_true.mp h1.2 c hc
  obtain ⟨ht, hd⟩ := takeWhile_all_append Char.isDigit ds rest hall h3
  rw [parseDigits, ht, hd, if_neg h1.1]

theorem parseDigits_sound {l g r : List Char} (h : parseDigits l = some (g, r)) :
    l = g ++ r ∧ digitsNE g := by
  rw [parseDigits] at h
  by_cases he : l.takeWhile Char.isDigit = []
  · rw [if_pos he] at h
    exact absurd h (by simp)
  · rw [if_neg he] at h
    simp only [Option.some.injEq, Prod.mk.injEq] at h
    obtain ⟨hg, hr⟩ := h
    refine ⟨?_, ?_, ?_⟩
    · rw [← hg, ← hr, List.takeWhile_append_dropWhile]
    · rw [← hg]
      exact he
    · rw [← hg, List.all_eq_true]
      exact fun x hx => List.mem_takeWhile_imp hx

theorem expectL_complete (pat rest : List Char) : expectL pat (pat ++ rest) = some rest := by
  rw [expectL, if_pos (isPrefixOf_app pat rest), List.drop_left]

theorem expectL_sound {pat l r : List Char} (h : expectL pat l = some r) : l = pat ++ r := by
  rw [expectL] at h
  by_cases hp : pat.isPrefixOf l = true
  · rw [if_pos hp] at h
    obtain ⟨t, ht⟩ := List.isPrefixOf_iff_prefix.mp hp
    simp only [Option.some.injEq] at h
    rw [← h, ← ht, List.drop_left]
  · rw [if_neg hp] at h
    exact absurd h (by simp)

theorem parseSDBody_complete {ids fds rest : List Char} (h1 : digitsNE ids) (h2 : digitsNE fds)
    (h3 : ∀ c, rest.head? = some c → c.isDigit = false) :
    parseSDBody ((ids ++ '.' :: fds) ++ rest) = some (ids ++ '.' :: fds, rest) := by
  have hids : ∀ c ∈ ids, Char.isDigit c = true := fun c hc => List.all_eq_true.mp h1.2 c hc
  have hfds : ∀ c ∈ fds, Char.isDigit c = true := fun c hc => List.all_eq_true.mp h2.2 c hc
  have hassoc : (ids ++ '.' :: fds) ++ rest = ids ++ '.' :: (fds ++ rest) := by simp
  have hdot : ∀ c, ('.' :: (fds ++ rest)).head? = some c → Char.isDigit c = false := by
    intro c hc
    rw [List.head?_cons, Option.some.injEq] at hc
    rw [← hc]
    decide
  obtain ⟨ht1, hd1⟩ := takeWhile_all_append Char.isDigit ids ('.' :: (fds ++ rest)) hids hdot
  obtain ⟨ht2, hd2⟩ := takeWhile_all_append Char.isDigit fds rest hfds h3
  rw [hassoc, parseSDBody, ht1, hd1, if_neg h1.1]
  rw [if_pos (by rw [List.head?_cons])]
  rw [show ('.' :: (fds ++ rest)).drop 1 = fds ++ rest from rfl]
  rw [ht2, hd2, if_neg h2.1]

theorem parseSD_complete (sgn : Bool) {ids fds rest : List Char} (h1 : digitsNE ids)
    (h2 : digitsNE fds) (h3 : ∀ c, rest.head? = some c → c.isDigit = false) :
    parseSD (sdStr sgn ids fds ++ rest) = some (sdStr sgn ids fds, rest) := by
  have hb := parseSDBody_complete h1 h2 h3
  cases sgn with
  | true =>
    have he : sdStr true ids fds ++ rest = '-' :: ((ids ++ '.' :: fds) ++ rest) := by
      simp [sdStr, sgnChars]
    rw [he, parseSD, if_pos (by rw [List.head?_cons])]
    rw [show ('-' :: ((ids ++ '.' :: fds) ++ rest)).drop 1 = (ids ++ '.' :: fds) ++ rest from rfl]
    rw [hb]
    simp [sdStr, sgnChars]
  | false =>
    have he : sdStr false ids fds ++ rest = (ids ++ '.' :: fds) ++ rest := by
      simp [sdStr, sgnChars]
    rw [he, parseSD]
    have hneg : ¬ ((ids ++ '.' :: fds) ++ rest).head? = some '-' := by
      cases ids with
      | nil => exact absurd rfl h1.1
      | cons c t =>
        have hc : c.isDigit = true := by
          have := List.all_eq_true.mp h1.2 c (List.mem_cons_self c t)
          simpa using this
        obtain ⟨hm, -, -, -⟩ := digit_not_special hc
        simp only [List.cons_append, List.head?_cons, Option.some.injEq]
        exact hm
    rw [if_neg hneg, hb]
    simp [sdStr, sgnChars]

theorem parseSDBody_sound {l g r : List Char} (h : parseSDBody l = some (g, r)) :
    l = g ++ r ∧ ∃ ids fds, g = ids ++ '.' :: fds ∧ digitsNE ids ∧ digitsNE fds := by
  rw [parseSDBody] at h
  by_cases h1 : l.takeWhile Char.isDigit = []
  · rw [if_pos h1] at h
    exact absurd h (by simp)
  rw [if_neg h1] at h
  by_cases h2 : (l.dropWhile Char.isDigit).head? = some '.'
  case neg =>
    rw [if_neg h2] at h
    exact absurd h (by simp)
  rw [if_pos h2] at h
  by_cases h3 : ((l.dropWhile Char.isDigit).drop 1).takeWhile Char.isDigit = []
  · rw [if_pos h3] at h
    exact absurd h (by simp)
  rw [if_neg h3] at h
  simp only [Option.some.injEq, Prod.mk.injEq] at h
  obtain ⟨hg, hr⟩ := h
  have hld : l.dropWhile Char.isDigit = '.' :: (l.dropWhile Char.isDigit).drop 1 := by
    cases hld : l.dropWhile Char.isDigit with
    | nil =>
      rw [hld] at h2
      exact absurd h2 (by simp)
    | cons c t =>
      rw [hld] at h2
      rw [List.head?_cons, Option.some.injEq] at h2
      rw [h2]
      rfl
  have hsplit1 : l = l.takeWhile Char.isDigit ++ l.dropWhile Char.isDigit :=
    (List.takeWhile_append_dropWhile _ _).symm
  have hsplit2 : (l.dropWhile Char.isDigit).drop 1
      = ((l.dropWhile Char.isDigit).drop 1).takeWhile Char.isDigit
        ++ ((l.dropWhile Char.isDigit).drop 1).dropWhile Char.isDigit :=
    (List.takeWhile_append_dropWhile _ _).symm
  refine ⟨?_, l.takeWhile Char.isDigit,
    ((l.dropWhile Char.isDigit).drop 1).takeWhile Char.isDigit, ?_, ⟨h1, ?_⟩, ⟨h3, ?_⟩⟩
  · rw [← hg, ← hr]
    conv_lhs => rw [hsplit1, hld, hsplit2]
    simp [List.append_assoc]
  · rw [← hg]
  · rw [List.all_eq_true]
    exact fun x hx => List.mem_takeWhile_imp hx
  · rw [List.all_eq_true]
    exact fun x hx => List.mem_takeWhile_imp hx

theorem parseSD_sound {l g r : List Char} (h : parseSD l = some (g, r)) :
    l = g ++ r ∧ ∃ sgn ids fds, g = sdStr sgn ids fds ∧ digitsNE ids ∧ digitsNE fds := by
  rw [parseSD] at h
  by_cases hm : l.head? = some '-'
  · rw [if_pos hm] at h
    match hb : parseSDBody (l.drop 1) with
    | none =>
      rw [hb] at h
      exact absurd h (by simp)
    | some gb =>
      rw [hb] at h
      simp only [Option.some.injEq, Prod.mk.injEq] at h
      obtain ⟨hg, hr⟩ := h
      obtain ⟨hl1, ids, fds, hgb, hni, hnf⟩ :=
        parseSDBody_sound (show parseSDBody (l.drop 1) = some (gb.1, gb.2) from by rw [hb])
      have hl : l = '-' :: l.drop 1 := by
        cases l with
        | nil => exact absurd hm (by simp)
        | cons c t =>
          rw [List.head?_cons, Option.some.injEq] at hm
          rw [hm]
          rfl
      refine ⟨?_, true, ids, fds, ?_, hni, hnf⟩
      · rw [← hg, ← hr, hl, hl1]
        rfl
      · rw [← hg, hgb]
        rfl
  · rw [if_neg hm] at h
    obtain ⟨hl1, ids, fds, hgb, hni, hnf⟩ := parseSDBody_sound h
    refine ⟨hl1, false, ids, fds, ?_, hni, hnf⟩
    rw [hgb]
    simp [sdStr, sgnChars]

theorem head_not_digit_space_led {u : List Char} (hu : ∃ c t, u = c :: t ∧ c.isDigit = false)
    (rest : List Char) : ∀ x, (u ++ rest).head? = some x → x.isDigit = false := by
  obtain ⟨c, t, rfl, hc⟩ := hu
  intro x hx
  rw [List.cons_append, List.head?_cons, Option.some.injEq] at hx
  rw [← hx]
  exact hc

theorem parsePos_complete {resp : List Char} {s1 : Bool} {i1 f1 : List Char} {s2 : Bool}
    {i2 f2 : List Char} {s3 : Bool} {i3 f3 g4 g5 : List Char}
    (h : M114Shape resp s1 i1 f1 s2 i2 f2 s3 i3 f3 g4 g5) :
    parsePos resp = some (sdStr s1 i1 f1, sdStr s2 i2 f2, sdStr s3 i3 f3, g4, g5) := by
  obtain ⟨hre, hi1, hf1, hi2, hf2, hi3, hf3, hg4, hg5⟩ := h
  subst hre
  have hB := parseSD_complete s1 hi1 hf1 (head_not_digit_space_led (u := s2l " Y:")
    ⟨' ', s2l "Y:", by decide, by decide⟩
    (sdStr s2 i2 f2 ++ (s2l " Z:" ++ (sdStr s3 i3 f3 ++ (s2l " A:" ++ (g4 ++ (s2l " B:" ++ g5)))))))
  have hD := parseSD_complete s2 hi2 hf2 (head_not_digit_space_led (u := s2l " Z:")
    ⟨' ', s2l "Z:", by decide, by decide⟩
    (sdStr s3 i3 f3 ++ (s2l " A:" ++ (g4 ++ (s2l " B:" ++ g5)))))
  have hF := parseSD_complete s3 hi3 hf3 (head_not_digit_space_led (u := s2l " A:")
    ⟨' ', s2l "A:", by decide, by decide⟩
    (g4 ++ (s2l " B:" ++ g5)))
  have hH := parseDigits_complete hg4 (head_not_digit_space_led (u := s2l " B:")
    ⟨' ', s2l "B:", by decide, by decide⟩ g5)
  have hJ : parseDigits g5 = some (g5, []) := by
    have := @parseDigits_complete g5 [] hg5 (by intro c hc; exact absurd hc (by simp))
    rw [List.append_nil] at this
    exact this
  simp only [parsePos, expectL_complete, hB, hD, hF, hH, hJ]
  rw [if_pos trivial]

theorem parsePos_sound {resp q1 q2 q3 q4 q5 : List Char}
    (h : parsePos resp = some (q1, q2, q3, q4, q5)) :
    ∃ s1 i1 f1 s2 i2 f2 s3 i3 f3,
      M114Shape resp s1 i1 f1 s2 i2 f2 s3 i3 f3 q4 q5
      ∧ q1 = sdStr s1 i1 f1 ∧ q2 = sdStr s2 i2 f2 ∧ q3 = sdStr s3 i3 f3 := by
  rw [parsePos] at h
  match h1 : expectL (s2l "X:") resp with
  | none => rw [h1] at h; exact absurd h (by simp)
  | some l1 =>
  simp only [h1] at h
  match h2 : parseSD l1 with
  | none => rw [h2] at h; exact absurd h (by simp)
  | some (G1, l2) =>
  simp only [h2] at h
  match h3 : expectL (s2l " Y:") l2 with
  | none => rw [h3] at h; exact absurd h (by simp)
  | some l3 =>
  simp only [h3] at h
  match h4 : parseSD l3 with
  | none => rw [h4] at h; exact absurd h (by simp)
  | some (G2, l4) =>
  simp only [h4] at h
  match h5 : expectL (s2l " Z:") l4 with
  | none => rw [h5] at h; exact absurd h (by simp)
  | some l5 =>
  simp only [h5] at h
  match h6 : parseSD l5 with
  | none => rw [h6] at h; exact absurd h (by simp)
  | some (G3, l6) =>
  simp only [h6] at h
  match h7 : expectL (s2l " A:") l6 with
  | none => rw [h7] at h; exact absurd h (by simp)
  | some l7 =>
  simp only [h7] at h
  match h8 : parseDigits l7 with
  | none => rw [h8] at h; exact absurd h (by simp)
  | some (G4, l8) =>
  simp only [h8] at h
  match h9 : expectL (s2l " B:") l8 with
  | none => rw [h9] at h; exact absurd h (by simp)
  | some l9 =>
  simp only [h9] at h
  match h10 : parseDigits l9 with
  | none => rw [h10] at h; exact absurd h (by simp)
  | some (G5, l10) =>
  simp only [h10] at h
  by_cases hnil : l10 = []
  case neg =>
    rw [if_neg hnil] at h
    exact absurd h (by simp)
  rw [if_pos hnil] at h
  simp only [Option.some.injEq, Prod.mk.injEq] at h
  obtain ⟨e1, e2, e3, e4, e5⟩ := h
  obtain ⟨hl1, s1v, i1v, f1v, hG1, hi1, hf1⟩ := parseSD_sound h2
  obtain ⟨hl3, s2v, i2v, f2v, hG2, hi2, hf2⟩ := parseSD_sound h4
  obtain ⟨hl5, s3v, i3v, f3v, hG3, hi3, hf3⟩ := parseSD_sound h6
  obtain ⟨hl7, hG4⟩ := parseDigits_sound h8
  obtain ⟨hl9, hG5⟩ := parseDigits_sound h10
  refine ⟨s1v, i1v, f1v, s2v, i2v, f2v, s3v, i3v, f3v,
    ⟨?_, hi1, hf1, hi2, hf2, hi3, hf3, ?_, ?_⟩, ?_, ?_, ?_⟩
  · rw [expectL_sound h1, hl1, expectL_sound h3, hl3, expectL_sound h5, hl5,
      expectL_sound h7, hl7, expectL_sound h9, hl9, hnil]
    rw [hG1, hG2, hG3, ← e4, ← e5]
    simp [List.append_assoc]
  · rw [← e4]
    exact hG4
  · rw [← e5]
    exact hG5
  · rw [← e1, hG1]
  · rw [← e2, hG2]
  · rw [← e3, hG3]

/-- C6 (amended): `QueryExtruderPosition` succeeds exactly on payloads of the
single-line shape `X:<sd> Y:<sd> Z:<sd> A:<int> B:<int>` where — unlike the
claim's "optional `.` and fractional digits" — each `<sd>` *must* contain a
decimal point with at least one fractional digit (the source regexp group is
`\-?\d+(?:\.\d+)` with no `?` on the fractional group; see the
counterexample); on success the three decimals are decoded by the Distance
Codec value formula into X, Y, Z and the two digit runs into A and B, and
every other payload is a parse failure. -/
theorem queryExtruderPosition_characterization (p : Position) (resp : List Char) :
    ((∃ s1 i1 f1 s2 i2 f2 s3 i3 f3 g4 g5, M114Shape resp s1 i1 f1 s2 i2 f2 s3 i3 f3 g4 g5)
       ↔ (queryExtruderPosition p resp).2 = none)
    ∧ (∀ (s1 : Bool) (i1 f1 : List Char) (s2 : Bool) (i2 f2 : List Char) (s3 : Bool)
        (i3 f3 g4 g5 : List Char),
        M114Shape resp s1 i1 f1 s2 i2 f2 s3 i3 f3 g4 g5 →
        queryExtruderPosition p resp
          = (⟨sdVal s1 i1 f1, sdVal s2 i2 f2, sdVal s3 i3 f3,
              (digitsVal g4 : Int), (digitsVal g5 : Int)⟩, none)) := by
  have hval : ∀ (s1 : Bool) (i1 f1 : List Char) (s2 : Bool) (i2 f2 : List Char) (s3 : Bool)
      (i3 f3 g4 g5 : List Char),
      M114Shape resp s1 i1 f1 s2 i2 f2 s3 i3 f3 g4 g5 →
      queryExtruderPosition p resp
        = (⟨sdVal s1 i1 f1, sdVal s2 i2 f2, sdVal s3 i3 f3,
            (digitsVal g4 : Int), (digitsVal g5 : Int)⟩, none) := by
    intro s1 i1 f1 s2 i2 f2 s3 i3 f3 g4 g5 h
    have hpp := parsePos_complete h
    obtain ⟨-, hi1, hf1, hi2, hf2, hi3, hf3, hg4, hg5⟩ := h
    have hd1 : distStep (sdStr s1 i1 f1) = .ok (sdVal s1 i1 f1) := by
      rw [distStep, parseDistance_frac_case s1 hi1.1 hi1.2 hf1.1 hf1.2]
    have hd2 : distStep (sdStr s2 i2 f2) = .ok (sdVal s2 i2 f2) := by
      rw [distStep, parseDistance_frac_case s2 hi2.1 hi2.2 hf2.1 hf2.2]
    have hd3 : distStep (sdStr s3 i3 f3) = .ok (sdVal s3 i3 f3) := by
      rw [distStep, parseDistance_frac_case s3 hi3.1 hi3.2 hf3.1 hf3.2]
    have ha4 := goAtoi_digits hg4.1 hg4.2
    have ha5 := goAtoi_digits hg5.1 hg5.2
    simp only [queryExtruderPosition, hpp, hd1, hd2, hd3, ha4, ha5]
  refine ⟨⟨?_, ?_⟩, hval⟩
  · rintro ⟨s1, i1, f1, s2, i2, f2, s3, i3, f3, g4, g5, h⟩
    rw [hval s1 i1 f1 s2 i2 f2 s3 i3 f3 g4 g5 h]
  · intro hok
    match hpp : parsePos resp with
    | none =>
      simp only [queryExtruderPosition, hpp] at hok
      exact absurd hok (by simp)
    | some (q1, q2, q3, q4, q5) =>
      obtain ⟨s1, i1, f1, s2, i2, f2, s3, i3, f3, hshape, -, -, -⟩ := parsePos_sound hpp
      exact ⟨s1, i1, f1, s2, i2, f2, s3, i3, f3, q4, q5, hshape⟩

/-- C6 witness: the concrete payload `X:-12.340 Y:0.0 Z:1.5 A:4 B:56`
decoded through the characterization at its explicit decomposition. -/
theorem queryExtruderPosition_characterization_witness :
    queryExtruderPosition pos0 (s2l "X:-12.340 Y:0.0 Z:1.5 A:4 B:56")
      = (⟨sdVal true (s2l "12") (s2l "340"), sdVal false (s2l "0") (s2l "0"),
          sdVal false (s2l "1") (s2l "5"),
          (digitsVal (s2l "4") : Int), (digitsVal (s2l "56") : Int)⟩, none) :=
  (queryExtruderPosition_characterization pos0 (s2l "X:-12.340 Y:0.0 Z:1.5 A:4 B:56")).2
    true (s2l "12") (s2l "340") false (s2l "0") (s2l "0") false (s2l "1") (s2l "5")
    (s2l "4") (s2l "56") (by exact ⟨by decide, by decide, by decide, by decide, by decide,
      by decide, by decide, by decide, by decide⟩)

/-- C6 counterexample: the payload `X:1 Y:2.5 Z:3.5 A:4 B:5`, whose X field
`1` is a valid Distance Codec string (integer part, no fractional part) and so
by the claim should be accepted, is rejected by the code: the regexp demands a
mandatory fractional part in every decimal field. -/
theorem queryExtruderPosition_integer_field_rejected_cex :
    queryExtruderPosition pos0 (s2l "X:1 Y:2.5 Z:3.5 A:4 B:5")
      = (pos0, some (.unknownReply (s2l "X:1 Y:2.5 Z:3.5 A:4 B:5")))
    ∧ runParseDistance (s2l "1") = some (.ok 1000000) := by
  exact ⟨by decide, by decide⟩
